import Mathlib

/-!
Verification development for the top-down game repository.

The embedding below is a shallow translation of the algorithmic core of the
repository into Lean:

* `src/main.py` — `Game.update_pathfinding_queue` (the round-robin path
  scheduler) and `Game.find_path` (the pathfinding entry point);
* `src/player.py` — `Player.decrease_stamina`, `Player.pickup_item` (health
  branch), `Player.handle_player_movement` / `Player.process_input` (velocity
  fragment), and the motion/collision tail of `Player.update`;
* `core_functions.collide_with_obstacles` and `pathfinding.a_star_search` are
  referenced by the sources above but their files are not part of the source
  tree examined here; they are modelled from the specification document, and
  each such definition is marked `Modelled from the spec:` in its doc comment.

Numeric conventions: Python ints are `Int`; Python floats (stamina, health,
velocities) are idealized as `ℚ`, and continuous positions as `Int`, since
every property proved here is order/structure based with margins far larger
than any float rounding. `pygame.time.get_ticks()` millisecond clocks are
`Int`.
-/

/-! ## Path scheduler (`src/main.py`, `Game.update_pathfinding_queue`) -/

/-- State touched by `Game.update_pathfinding_queue`: the `can_find_path`
flag of each mob in the `self.mobs` group (in group iteration order),
`self.mob_idx`, and `self.last_queue_update`.  Mob identity is positional. -/
structure SchedState where
  mobs : List Bool
  mob_idx : Nat
  last_queue_update : Int
deriving DecidableEq, Repr

/-- `Game.update_pathfinding_queue` (src/main.py lines 550-569), with
`now = pg.time.get_ticks()` passed in.  If more than 5000 ms elapsed:
`last_queue_update := now`; `mob_idx` is reset to 0 only when it equals
`len(self.mobs)` exactly; every mob's flag is set to `False` and then to
`True` for the single mob whose loop position equals `mob_idx`; finally
`mob_idx += 1`. -/
def update_pathfinding_queue (now : Int) (s : SchedState) : SchedState :=
  if now - s.last_queue_update > 5000 then
    let idx := if s.mob_idx = s.mobs.length then 0 else s.mob_idx
    { mobs := s.mobs.mapIdx fun count _ => decide (count = idx)
      mob_idx := idx + 1
      last_queue_update := now }
  else s

/-- Events that touch the scheduler state between frames: a frame whose
clock reads `now` (running `update_pathfinding_queue`), or the removal of
the mob at position `i` of the group (a mob dying removes it from
`self.mobs`; nothing else in `src/main.py` touches `mob_idx` or
`last_queue_update` after `Game.new`). -/
inductive SchedEvent where
  | window (now : Int)
  | removeMob (i : Nat)
deriving DecidableEq, Repr

/-- One scheduler-relevant event applied to the state. -/
def schedStep (s : SchedState) (e : SchedEvent) : SchedState :=
  match e with
  | .window now => update_pathfinding_queue now s
  | .removeMob i => { s with mobs := s.mobs.eraseIdx i }

/-- Run a sequence of events from a state. -/
def schedRun (s : SchedState) (events : List SchedEvent) : SchedState :=
  events.foldl schedStep s

/-- Scheduler state right after `Game.new` (src/main.py lines 244-245):
`mob_idx = 0`, `last_queue_update = 0`, with `n` freshly spawned mobs
(their initial `can_find_path` value is irrelevant to the theorems below,
which only inspect states whose flags a window has overwritten; it is
taken to be `false`). -/
def schedInit (n : Nat) : SchedState :=
  ⟨List.replicate n false, 0, 0⟩

/-- A reachable scheduler state exhibiting rotation desynchronization:
two mobs, two elapsed windows (advancing `mob_idx` to 2), then the mob at
position 1 dies.  Leaves one live mob with `mob_idx = 2`. -/
def desyncState : SchedState :=
  schedRun (schedInit 2) [.window 6000, .window 12000, .removeMob 1]

/-- A second reachable desynchronized state, built from three mobs: two
elapsed windows advance `mob_idx` to 2, then the mobs at positions 0 and
then 0 again die, leaving one live mob with `mob_idx = 2`. -/
def desyncStateB : SchedState :=
  schedRun (schedInit 3) [.window 6000, .window 12000, .removeMob 0, .removeMob 0]

/-- A third reachable desynchronized state (windows at 5500 and 11000,
then the mob at position 1 dies), used to examine the subsequent windows
with a stable one-mob population. -/
def desyncStateC : SchedState :=
  schedRun (schedInit 2) [.window 5500, .window 11000, .removeMob 1]

/-! ## Player stamina (`src/player.py`, `Player.decrease_stamina`) -/

/-- `Player.decrease_stamina` (src/player.py lines 92-103): inputs are the
clock `now`, the stored `stamina_decrease_time`, the current stamina and
the decrease rate; the result is the new `(stamina, stamina_decrease_time)`
pair.  The decrement happens only when more than 75 ms elapsed, and a
negative result is clamped to 0. -/
def decrease_stamina (now stamina_decrease_time : Int) (stamina decrease_rate : ℚ) :
    ℚ × Int :=
  if now - stamina_decrease_time > 75 then
    let st := stamina - decrease_rate
    (if st < 0 then 0 else st, now)
  else
    (stamina, stamina_decrease_time)

/-! ## Player health pickup (`src/player.py`, `Player.pickup_item`) -/

/-- The player attributes touched by the health branch of
`Player.pickup_item`: the `health` attribute, and the separate `heatlh`
attribute that line 383 of src/player.py creates (the clamp assignment is
spelled `self.heatlh = PLAYER_HEALTH`, so in Python it writes a brand-new
attribute instead of `health`). -/
structure PlayerHealthState where
  health : ℚ
  heatlh : Option ℚ
deriving DecidableEq, Repr

/-- The non-weapon, non-ammo branch of `Player.pickup_item`
(src/player.py lines 380-383): `health += item.HEALTH_BOOST`, then
`if health > PLAYER_HEALTH: heatlh = PLAYER_HEALTH` — the misspelled
target leaves `health` itself unclamped.  `PLAYER_HEALTH` comes from the
settings module and is passed as a parameter. -/
def pickup_item_health (PLAYER_HEALTH HEALTH_BOOST : ℚ) (p : PlayerHealthState) :
    PlayerHealthState :=
  let p1 : PlayerHealthState := { p with health := p.health + HEALTH_BOOST }
  if p1.health > PLAYER_HEALTH then { p1 with heatlh := some PLAYER_HEALTH } else p1

/-! ## Player movement velocity (`src/player.py`, `Player.process_input` /
`Player.handle_player_movement`) -/

/-- `Player.handle_player_movement` (src/player.py lines 238-286), velocity
effect only.  `process_input` has already reset `vel = (0, 0)`.  The sprint
branch is taken when SPACE is held and `stamina > 0`; key checks run in
source order (a, d, w, s), later assignments overriding earlier ones.
`PLAYER_SPEED` comes from the settings module and is passed as `speed`. -/
def handle_player_movement (space a d w s : Bool) (stamina speed : ℚ) : ℚ × ℚ :=
  if space = true ∧ stamina > 0 then
    let v0 : ℚ × ℚ := (0, 0)
    let v1 := if a then (-speed * 2, v0.2) else v0
    let v2 := if d then (speed * 2, v1.2) else v1
    let v3 := if w then (v2.1, -speed * 2) else v2
    let v4 := if s then (v3.1, speed * 2) else v3
    v4
  else
    let v0 : ℚ × ℚ := (0, 0)
    let v1 := if a then (-speed * 1, v0.2) else v0
    let v2 := if d then (speed * 1, v1.2) else v1
    let v3 := if w then (v2.1, -speed * 1) else v2
    let v4 := if s then (v3.1, speed * 1) else v3
    v4

/-- The diagonal-compensation step of `Player.process_input`
(src/player.py lines 171-173): after movement keys are handled, if both
velocity components are non-zero the vector is scaled by `0.7071`. -/
def process_input_vel (space a d w s : Bool) (stamina speed : ℚ) : ℚ × ℚ :=
  let v := handle_player_movement space a d w s stamina speed
  if v.1 ≠ 0 ∧ v.2 ≠ 0 then (v.1 * (7071 / 10000), v.2 * (7071 / 10000)) else v

/-- The single-axis speed the player moves at for a given sprint state:
`PLAYER_SPEED * 2` when sprinting (SPACE held with positive stamina),
`PLAYER_SPEED * 1` otherwise (src/player.py lines 245-286). -/
def single_axis_speed (space : Bool) (stamina speed : ℚ) : ℚ :=
  if space = true ∧ stamina > 0 then speed * 2 else speed * 1

/-! ## Collision resolution

`core_functions.collide_with_obstacles` is imported by `src/player.py` but
`core_functions.py` itself is not among the source files examined, so the
resolver is modelled from the specification (spec.md §4.4): per axis, find
all obstacles the entity rectangle currently overlaps, push the rectangle
to the near edge of an obstacle in the direction opposite to travel,
applying the smallest such correction first when several obstacles overlap
simultaneously, and repeat until no overlap remains.  Degenerate
(zero-area) rectangles never count as overlapping. -/

/-- Modelled from the spec: an axis-aligned rectangle viewed along the axis
being resolved.  `p` is the minimum edge and `pw` the size along the
resolved axis; `q`/`qw` are the same for the cross axis. -/
structure Box where
  p : Int
  pw : Int
  q : Int
  qw : Int
deriving DecidableEq, Repr

/-- Modelled from the spec: strict axis-aligned rectangle overlap; a
rectangle with zero (or negative) width or height overlaps nothing
(spec.md §4.4 "degenerate (zero-area) rectangles are a no-op"). -/
def boxOverlap (a b : Box) : Prop :=
  0 < a.pw ∧ 0 < a.qw ∧ 0 < b.pw ∧ 0 < b.qw ∧
    a.p < b.p + b.pw ∧ b.p < a.p + a.pw ∧ a.q < b.q + b.qw ∧ b.q < a.q + a.qw

instance (a b : Box) : Decidable (boxOverlap a b) := by
  unfold boxOverlap
  infer_instance

/-- Modelled from the spec: the obstacles the entity rectangle currently
overlaps. -/
def hitsOf (r : Box) (obs : List Box) : List Box :=
  obs.filter fun o => decide (boxOverlap r o)

/-- Modelled from the spec: the largest flush-left position among the
candidate obstacles — pushing opposite to rightward travel, the position
`o.p - r.pw` (entity's far edge flush with obstacle `o`'s near edge) that
is closest to the current position, i.e. the smallest correction. -/
def maxLeftFlush (r : Box) : List Box → Int → Int
  | [], acc => acc
  | o :: rest, acc => maxLeftFlush r rest (max acc (o.p - r.pw))

/-- Modelled from the spec: the smallest flush-right position among the
candidate obstacles — pushing opposite to leftward travel, the position
`o.p + o.pw` that is closest to the current position, i.e. the smallest
correction. -/
def minRightFlush (r : Box) : List Box → Int → Int
  | [], acc => acc
  | o :: rest, acc => minRightFlush r rest (min acc (o.p + o.pw))

/-- Modelled from the spec: the position the entity is pushed to on one
leftward correction step (smallest correction among current overlaps). -/
def leftTarget (r : Box) : List Box → Int
  | [] => r.p
  | o :: rest => maxLeftFlush r rest (o.p - r.pw)

/-- Modelled from the spec: the position the entity is pushed to on one
rightward correction step (smallest correction among current overlaps). -/
def rightTarget (r : Box) : List Box → Int
  | [] => r.p
  | o :: rest => minRightFlush r rest (o.p + o.pw)

/-- Modelled from the spec: repeatedly apply the smallest leftward
correction until the entity overlaps no obstacle.  The fuel is a bound on
the number of steps; `obs.length` always suffices (proved below). -/
def resolveLeft : Nat → Box → List Box → Box
  | 0, r, _ => r
  | fuel + 1, r, obs =>
    match hitsOf r obs with
    | [] => r
    | o :: rest => resolveLeft fuel { r with p := leftTarget r (o :: rest) } obs

/-- Modelled from the spec: repeatedly apply the smallest rightward
correction until the entity overlaps no obstacle. -/
def resolveRight : Nat → Box → List Box → Box
  | 0, r, _ => r
  | fuel + 1, r, obs =>
    match hitsOf r obs with
    | [] => r
    | o :: rest => resolveRight fuel { r with p := rightTarget r (o :: rest) } obs

/-- Modelled from the spec: obstacles whose near-left edge the entity could
still be pushed against — the cross-axis overlap conditions together with
`o.p < r.p + r.pw`.  Used as the termination measure of `resolveLeft`. -/
def leftBlocking (r o : Box) : Prop :=
  0 < r.pw ∧ 0 < r.qw ∧ 0 < o.pw ∧ 0 < o.qw ∧
    r.q < o.q + o.qw ∧ o.q < r.q + r.qw ∧ o.p < r.p + r.pw

instance (r o : Box) : Decidable (leftBlocking r o) := by
  unfold leftBlocking
  infer_instance

/-- Modelled from the spec: obstacles whose near-right edge the entity could
still be pushed against.  Termination measure of `resolveRight`. -/
def rightBlocking (r o : Box) : Prop :=
  0 < r.pw ∧ 0 < r.qw ∧ 0 < o.pw ∧ 0 < o.qw ∧
    r.q < o.q + o.qw ∧ o.q < r.q + r.qw ∧ r.p < o.p + o.pw

instance (r o : Box) : Decidable (rightBlocking r o) := by
  unfold rightBlocking
  infer_instance

/-- Number of obstacles still able to block a leftward push. -/
def leftMeasure (r : Box) (obs : List Box) : Nat :=
  (obs.filter fun o => decide (leftBlocking r o)).length

/-- Number of obstacles still able to block a rightward push. -/
def rightMeasure (r : Box) (obs : List Box) : Nat :=
  (obs.filter fun o => decide (rightBlocking r o)).length

/-- An entity rectangle in world coordinates, as pygame stores it:
left `x`, top `y`, width `w`, height `h` (`Player.hit_rect` and the wall
rectangles). -/
structure SRect where
  x : Int
  y : Int
  w : Int
  h : Int
deriving DecidableEq, Repr

/-- Strict rectangle overlap in world coordinates (pygame `colliderect`
with the degenerate-rectangle no-op required by spec.md §4.4). -/
def rectOverlap (a b : SRect) : Prop :=
  0 < a.w ∧ 0 < a.h ∧ 0 < b.w ∧ 0 < b.h ∧
    a.x < b.x + b.w ∧ b.x < a.x + a.w ∧ a.y < b.y + b.h ∧ b.y < a.y + a.h

instance (a b : SRect) : Decidable (rectOverlap a b) := by
  unfold rectOverlap
  infer_instance

/-- The axis a resolution call works along (`'x'` or `'y'` in the Python
call sites). -/
inductive Axis where
  | x
  | y
deriving DecidableEq, Repr

/-- View a rectangle with `x` as the resolved axis. -/
def toBoxX (r : SRect) : Box := ⟨r.x, r.w, r.y, r.h⟩

/-- View a rectangle with `y` as the resolved axis. -/
def toBoxY (r : SRect) : Box := ⟨r.y, r.h, r.x, r.w⟩

/-- Back from the `x`-axis view. -/
def ofBoxX (b : Box) : SRect := ⟨b.p, b.q, b.pw, b.qw⟩

/-- Back from the `y`-axis view. -/
def ofBoxY (b : Box) : SRect := ⟨b.q, b.p, b.qw, b.pw⟩

/-- Modelled from the spec: `core_functions.collide_with_obstacles(sprite,
group, dir)` as contracted in spec.md §4.4 — resolve the entity rectangle
against every obstacle along one axis, pushing in the direction opposite
to the entity's travel along that axis (`travel` is the displacement the
entity just moved by along the axis; with no travel there is no push
direction and the call leaves the rectangle unchanged). -/
def collide_with_obstacles (r : SRect) (obs : List SRect) (dir : Axis) (travel : Int) :
    SRect :=
  match dir with
  | .x =>
    if 0 < travel then ofBoxX (resolveLeft obs.length (toBoxX r) (obs.map toBoxX))
    else if travel < 0 then ofBoxX (resolveRight obs.length (toBoxX r) (obs.map toBoxX))
    else r
  | .y =>
    if 0 < travel then ofBoxY (resolveLeft obs.length (toBoxY r) (obs.map toBoxY))
    else if travel < 0 then ofBoxY (resolveRight obs.length (toBoxY r) (obs.map toBoxY))
    else r

/-! ## Player motion tail (`src/player.py`, `Player.update` lines 443-457) -/

/-- Centre x-coordinate of a pygame rectangle (`rect.centerx`). -/
def centerX (r : SRect) : Int := r.x + r.w / 2

/-- Centre y-coordinate of a pygame rectangle (`rect.centery`). -/
def centerY (r : SRect) : Int := r.y + r.h / 2

/-- Assignment to `rect.centerx`. -/
def setCenterX (r : SRect) (c : Int) : SRect := { r with x := c - r.w / 2 }

/-- Assignment to `rect.centery`. -/
def setCenterY (r : SRect) (c : Int) : SRect := { r with y := c - r.h / 2 }

/-- The player state touched by the motion tail of `Player.update`:
`self.pos` (idealized to integer coordinates) and `self.hit_rect`. -/
structure PlayerMotion where
  pos : Int × Int
  hit_rect : SRect
deriving DecidableEq, Repr

/-- The motion/collision tail of `Player.update` (src/player.py lines
451-457), with `disp = self.vel * self.game.dt` passed in:

* `self.pos += self.vel * self.game.dt` — both components at once;
* `self.hit_rect.centerx = self.pos.x`;
* `collide_with_obstacles(self, self.game.walls, 'x')` — resolves along x
  and writes the corrected coordinate back into `pos.x`;
* `self.hit_rect.centery = self.pos.y`;
* `collide_with_obstacles(self, self.game.walls, 'y')` — same along y.

Returns the final state together with the trace of resolution calls, each
recording the axis and the hit rectangle as the resolver sees it. -/
def player_update_motion (st : PlayerMotion) (disp : Int × Int) (walls : List SRect) :
    PlayerMotion × List (Axis × SRect) :=
  let pos1 := (st.pos.1 + disp.1, st.pos.2 + disp.2)
  let hr1 := setCenterX st.hit_rect pos1.1
  let hr2 := collide_with_obstacles hr1 walls .x disp.1
  let pos2 := (centerX hr2, pos1.2)
  let hr3 := setCenterY hr2 pos2.2
  let hr4 := collide_with_obstacles hr3 walls .y disp.2
  let pos3 := (pos2.1, centerY hr4)
  (⟨pos3, hr4⟩, [(.x, hr1), (.y, hr3)])

/-! ## Pathfinding

`pathfinding.Pathfinder.a_star_search` and `pathfinding.WeightedGraph` are
imported by `src/main.py` but `pathfinding.py` itself is not among the
source files examined, so the search is modelled from the specification
(spec.md §4.1-§4.2): a weighted tile graph over a bounded grid with a
fixed, documented neighbor policy — 4-directional, orthogonal cost 1, the
matching admissible Manhattan heuristic — and A* with a cost-so-far map, a
predecessor map, and a frontier whose entries are ordered by `f = g + h`
with ties broken deterministically by insertion order. -/

/-- A tile coordinate (column, row). -/
abbrev Tile := Int × Int

/-- Modelled from the spec: `pathfinding.WeightedGraph` — grid bounds plus
the blocked-tile set (`self.game_graph.walls` is assigned the wall tile
list in `Game.new`, src/main.py line 243). -/
structure WeightedGraph where
  width : Int
  height : Int
  walls : List Tile
deriving DecidableEq, Repr

/-- Modelled from the spec: a tile is inside the grid bounds. -/
def inBounds (g : WeightedGraph) (t : Tile) : Bool :=
  decide (0 ≤ t.1 ∧ t.1 < g.width ∧ 0 ≤ t.2 ∧ t.2 < g.height)

/-- Modelled from the spec: a tile is not blocked by a wall. -/
def passable (g : WeightedGraph) (t : Tile) : Bool :=
  !(g.walls.contains t)

/-- Modelled from the spec: 4-directional neighbors, excluding
out-of-bounds and blocked tiles; all moves cost 1. -/
def neighbors (g : WeightedGraph) (t : Tile) : List Tile :=
  [(t.1 + 1, t.2), (t.1 - 1, t.2), (t.1, t.2 + 1), (t.1, t.2 - 1)].filter
    fun n => inBounds g n && passable g n

/-- Modelled from the spec: a frontier entry — priority `f = g + h`, the
insertion counter used for the deterministic tie-break, and the node. -/
structure Entry where
  f : Int
  ins : Nat
  node : Tile
deriving DecidableEq, Repr

/-- Modelled from the spec: the frontier ordering — strictly smaller
priority wins, and entries of equal priority are ordered by insertion
order (smaller insertion counter first). -/
def entryLE (a b : Entry) : Bool :=
  decide (a.f < b.f ∨ (a.f = b.f ∧ a.ins ≤ b.ins))

/-- Modelled from the spec: pop the frontier entry that is least in the
`entryLE` order; returns it together with the remaining frontier. -/
def popMin : List Entry → Option (Entry × List Entry)
  | [] => none
  | e :: rest =>
    match popMin rest with
    | none => some (e, [])
    | some (e2, rest2) => if entryLE e e2 then some (e, rest) else some (e2, e :: rest2)

/-- Modelled from the spec: the admissible Manhattan heuristic matching the
4-directional neighbor policy. -/
def heuristic (a b : Tile) : Int :=
  (a.1 - b.1).natAbs + (a.2 - b.2).natAbs

/-- Association-list lookup for the cost-so-far and predecessor maps. -/
def lookupTile {α : Type} : List (Tile × α) → Tile → Option α
  | [], _ => none
  | (k, v) :: rest, t => if k = t then some v else lookupTile rest t

/-- Association-list insert (newest binding shadows older ones). -/
def insertTile {α : Type} (m : List (Tile × α)) (t : Tile) (v : α) : List (Tile × α) :=
  (t, v) :: m

/-- Modelled from the spec: the A* working state — frontier, insertion
counter, cost-so-far map, predecessor map. -/
structure AState where
  frontier : List Entry
  counter : Nat
  costs : List (Tile × Int)
  came : List (Tile × Tile)
deriving DecidableEq, Repr

/-- Modelled from the spec: walk the predecessor chain from the goal back
to the start, accumulating the start→goal tile order. -/
def reconstruct : Nat → List (Tile × Tile) → Tile → Tile → List Tile → Option (List Tile)
  | 0, _, _, _, _ => none
  | fuel + 1, came, start, cur, acc =>
    if cur = start then some (start :: acc)
    else
      match lookupTile came cur with
      | none => none
      | some prev => reconstruct fuel came start prev (cur :: acc)

/-- Modelled from the spec: relax one neighbor `n` of the popped node
`cur`: if `n` is undiscovered or the new cost improves on the recorded
one, record the new cost and predecessor and push `n` onto the frontier
with priority `new_cost + h(n, goal)` and the next insertion counter. -/
def pushNeighbor (goal cur : Tile) (cur_cost : Int) (s : AState) (n : Tile) : AState :=
  let new_cost := cur_cost + 1
  let better :=
    match lookupTile s.costs n with
    | none => true
    | some old => decide (new_cost < old)
  if better then
    { frontier := ⟨new_cost + heuristic n goal, s.counter, n⟩ :: s.frontier
      counter := s.counter + 1
      costs := insertTile s.costs n new_cost
      came := insertTile s.came n cur }
  else s

/-- Modelled from the spec: the A* main loop — pop the least frontier
entry; if it is the goal, reconstruct the path; otherwise relax its
neighbors and continue.  An empty frontier means the goal is unreachable
(`NotFound`, encoded `none`); the fuel bounds the iteration count by the
map size and is an artifact of the embedding only. -/
def astarLoop : Nat → WeightedGraph → Tile → Tile → AState → Option (List Tile)
  | 0, _, _, _, _ => none
  | fuel + 1, g, start, goal, st =>
    match popMin st.frontier with
    | none => none
    | some (e, rest) =>
      if e.node = goal then reconstruct (fuel + 1) st.came start goal []
      else
        let cur_cost := (lookupTile st.costs e.node).getD 0
        astarLoop fuel g start goal
          ((neighbors g e.node).foldl (pushNeighbor goal e.node cur_cost)
            { st with frontier := rest })

/-- Modelled from the spec: `Pathfinder.a_star_search(graph, start, goal)`
— an invalid endpoint (out of bounds or blocked) fails like `NotFound`
(spec.md §4.2); otherwise run the loop from a frontier holding only the
start. -/
def a_star_search (g : WeightedGraph) (start goal : Tile) : Option (List Tile) :=
  if !(inBounds g start && passable g start && inBounds g goal && passable g goal) then
    none
  else
    let cells := (g.width.toNat + 1) * (g.height.toNat + 1)
    astarLoop ((cells + 1) * (cells + 1)) g start goal
      ⟨[⟨heuristic start goal, 0, start⟩], 1, [(start, 0)], []⟩

/-- `Game.find_path` (src/main.py lines 248-257): quantize the predator and
prey positions to tile coordinates with floor division by `TILESIZE` and
run the search.  `TILESIZE` comes from the settings module and is passed
as `ts`. -/
def find_path (g : WeightedGraph) (ts : Int) (predatorPos preyPos : Int × Int) :
    Option (List Tile) :=
  a_star_search g
    (Int.fdiv predatorPos.1 ts, Int.fdiv predatorPos.2 ts)
    (Int.fdiv preyPos.1 ts, Int.fdiv preyPos.2 ts)

/-- A concrete frontier entry (priority 5, inserted first). -/
def entryA : Entry := ⟨5, 0, (0, 0)⟩

/-- A concrete frontier entry (priority 5, inserted second). -/
def entryB : Entry := ⟨5, 1, (1, 0)⟩

/-! ## Theorems -/

/-- The two velocity components produced by `handle_player_movement` are
each 0, the single-axis speed, or its negation. -/
theorem handle_player_movement_component_vals (space a d w s : Bool)
    (stamina speed : ℚ) :
    ((handle_player_movement space a d w s stamina speed).1 = 0 ∨
      (handle_player_movement space a d w s stamina speed).1 =
        single_axis_speed space stamina speed ∨
      (handle_player_movement space a d w s stamina speed).1 =
        -single_axis_speed space stamina speed) ∧
      ((handle_player_movement space a d w s stamina speed).2 = 0 ∨
        (handle_player_movement space a d w s stamina speed).2 =
          single_axis_speed space stamina speed ∨
        (handle_player_movement space a d w s stamina speed).2 =
          -single_axis_speed space stamina speed) := by
  unfold handle_player_movement single_axis_speed
  by_cases hb : space = true ∧ stamina > 0
  · simp only [if_pos hb]
    cases a <;> cases d <;> cases w <;> cases s <;> simp [neg_mul]
  · simp only [if_neg hb]
    cases a <;> cases d <;> cases w <;> cases s <;> simp [neg_mul]

/-- Squared-magnitude bound for the scaled diagonal velocity. -/
theorem diagonal_sq_bound (S x y : ℚ) (hx : x = S ∨ x = -S) (hy : y = S ∨ y = -S) :
    (x * (7071 / 10000)) ^ 2 + (y * (7071 / 10000)) ^ 2 ≤ S ^ 2 := by
  have hx2 : x ^ 2 = S ^ 2 := by rcases hx with h | h <;> rw [h] <;> ring
  have hy2 : y ^ 2 = S ^ 2 := by rcases hy with h | h <;> rw [h] <;> ring
  have hsplit : (x * (7071 / 10000)) ^ 2 + (y * (7071 / 10000)) ^ 2 =
      ((7071 : ℚ) / 10000) ^ 2 * (x ^ 2 + y ^ 2) := by ring
  rw [hsplit, hx2, hy2]
  nlinarith [sq_nonneg S]

/-- C10: whenever `Player.process_input` ends the frame with both velocity
components non-zero, the velocity vector is the `handle_player_movement`
result scaled by 0.7071, and its squared magnitude never exceeds the
squared single-axis speed for the same input state. -/
theorem process_input_diagonal (space a d w s : Bool) (stamina speed : ℚ)
    (hx : (handle_player_movement space a d w s stamina speed).1 ≠ 0)
    (hy : (handle_player_movement space a d w s stamina speed).2 ≠ 0) :
    process_input_vel space a d w s stamina speed =
        ((handle_player_movement space a d w s stamina speed).1 * (7071 / 10000),
          (handle_player_movement space a d w s stamina speed).2 * (7071 / 10000)) ∧
      (process_input_vel space a d w s stamina speed).1 ^ 2 +
          (process_input_vel space a d w s stamina speed).2 ^ 2 ≤
        single_axis_speed space stamina speed ^ 2 := by
  have hscaled : process_input_vel space a d w s stamina speed =
      ((handle_player_movement space a d w s stamina speed).1 * (7071 / 10000),
        (handle_player_movement space a d w s stamina speed).2 * (7071 / 10000)) := by
    unfold process_input_vel
    rw [if_pos ⟨hx, hy⟩]
  refine ⟨hscaled, ?_⟩
  rw [hscaled]
  obtain ⟨hvx, hvy⟩ := handle_player_movement_component_vals space a d w s stamina speed
  have hvx2 : (handle_player_movement space a d w s stamina speed).1 =
      single_axis_speed space stamina speed ∨
      (handle_player_movement space a d w s stamina speed).1 =
        -single_axis_speed space stamina speed := by
    rcases hvx with h | h | h
    · exact absurd h hx
    · exact Or.inl h
    · exact Or.inr h
  have hvy2 : (handle_player_movement space a d w s stamina speed).2 =
      single_axis_speed space stamina speed ∨
      (handle_player_movement space a d w s stamina speed).2 =
        -single_axis_speed space stamina speed := by
    rcases hvy with h | h | h
    · exact absurd h hy
    · exact Or.inl h
    · exact Or.inr h
  exact diagonal_sq_bound (single_axis_speed space stamina speed) _ _ hvx2 hvy2

/-- Witness for `process_input_diagonal`: walking diagonally down-left with
no sprint (SPACE up), `PLAYER_SPEED = 10`. -/
theorem process_input_diagonal_witness :
    (handle_player_movement false true false true false 0 10).1 ≠ 0 ∧
      (handle_player_movement false true false true false 0 10).2 ≠ 0 ∧
      (process_input_vel false true false true false 0 10 =
          ((handle_player_movement false true false true false 0 10).1 * (7071 / 10000),
            (handle_player_movement false true false true false 0 10).2 * (7071 / 10000)) ∧
        (process_input_vel false true false true false 0 10).1 ^ 2 +
            (process_input_vel false true false true false 0 10).2 ^ 2 ≤
          single_axis_speed false 0 10 ^ 2) :=
  ⟨by norm_num [handle_player_movement], by norm_num [handle_player_movement],
    process_input_diagonal false true false true false 0 10
      (by norm_num [handle_player_movement]) (by norm_num [handle_player_movement])⟩

/-- C4: the motion tail of `Player.update` performs exactly one resolution
call per axis, x first and then y; the x call sees the hit rectangle
advanced only along x (its y, w, h equal the frame-start rectangle's), and
the y call sees the post-x-resolution rectangle advanced only along y
(its x, w, h equal the x-resolved rectangle's). -/
theorem player_update_collides_once_per_axis (st : PlayerMotion) (disp : Int × Int)
    (walls : List SRect) :
    (player_update_motion st disp walls).2 =
        [(Axis.x, setCenterX st.hit_rect (st.pos.1 + disp.1)),
          (Axis.y, setCenterY
            (collide_with_obstacles (setCenterX st.hit_rect (st.pos.1 + disp.1))
              walls .x disp.1)
            (st.pos.2 + disp.2))] ∧
      (setCenterX st.hit_rect (st.pos.1 + disp.1)).y = st.hit_rect.y ∧
      (setCenterX st.hit_rect (st.pos.1 + disp.1)).w = st.hit_rect.w ∧
      (setCenterX st.hit_rect (st.pos.1 + disp.1)).h = st.hit_rect.h ∧
      (setCenterY (collide_with_obstacles (setCenterX st.hit_rect (st.pos.1 + disp.1))
            walls .x disp.1) (st.pos.2 + disp.2)).x =
        (collide_with_obstacles (setCenterX st.hit_rect (st.pos.1 + disp.1))
            walls .x disp.1).x ∧
      (setCenterY (collide_with_obstacles (setCenterX st.hit_rect (st.pos.1 + disp.1))
            walls .x disp.1) (st.pos.2 + disp.2)).w =
        (collide_with_obstacles (setCenterX st.hit_rect (st.pos.1 + disp.1))
            walls .x disp.1).w ∧
      (setCenterY (collide_with_obstacles (setCenterX st.hit_rect (st.pos.1 + disp.1))
            walls .x disp.1) (st.pos.2 + disp.2)).h =
        (collide_with_obstacles (setCenterX st.hit_rect (st.pos.1 + disp.1))
            walls .x disp.1).h :=
  ⟨rfl, rfl, rfl, rfl, rfl, rfl, rfl⟩

/-- Filtering with a pointwise-weaker predicate keeps at most as many
elements. -/
theorem filter_length_mono {α : Type} (p q : α → Bool) :
    ∀ l : List α, (∀ x ∈ l, q x = true → p x = true) →
      (l.filter q).length ≤ (l.filter p).length := by
  intro l
  induction l with
  | nil => intro _; simp
  | cons a t ih =>
    intro h
    have iht := ih fun x hx => h x (List.mem_cons_of_mem a hx)
    by_cases hq : q a = true
    · have hp : p a = true := h a (List.mem_cons_self a t) hq
      simp only [List.filter_cons, hq, hp, if_true, List.length_cons]
      exact Nat.succ_le_succ iht
    · simp only [Bool.not_eq_true] at hq
      cases hp : p a with
      | false => simpa [List.filter_cons, hq, hp] using iht
      | true =>
        simp only [List.filter_cons, hq, hp, if_true, List.length_cons]
        simp only [Bool.false_eq_true, if_false]
        exact Nat.le_succ_of_le iht

/-- Filtering with a pointwise-weaker predicate that also loses at least
one listed element keeps strictly fewer elements. -/
theorem filter_length_lt {α : Type} (p q : α → Bool) :
    ∀ l : List α, (∀ x ∈ l, q x = true → p x = true) →
      ∀ x ∈ l, p x = true → q x = false →
        (l.filter q).length < (l.filter p).length := by
  intro l
  induction l with
  | nil => intro _ x hx; exact absurd hx (List.not_mem_nil x)
  | cons a t ih =>
    intro h x hx hpx hqx
    have hmono : ∀ y ∈ t, q y = true → p y = true :=
      fun y hy => h y (List.mem_cons_of_mem a hy)
    rcases List.mem_cons.mp hx with rfl | hxt
    · simp only [List.filter_cons, hqx, hpx, if_true, List.length_cons]
      simp only [Bool.false_eq_true, if_false]
      exact Nat.lt_succ_of_le (filter_length_mono p q t hmono)
    · have iht := ih hmono x hxt hpx hqx
      by_cases hqa : q a = true
      · have hpa : p a = true := h a (List.mem_cons_self a t) hqa
        simp only [List.filter_cons, hqa, hpa, if_true, List.length_cons]
        exact Nat.succ_lt_succ iht
      · simp only [Bool.not_eq_true] at hqa
        cases hpa : p a with
        | false => simpa [List.filter_cons, hqa, hpa] using iht
        | true =>
          simp only [List.filter_cons, hqa, hpa, if_true, List.length_cons]
          simp only [Bool.false_eq_true, if_false]
          exact Nat.lt_succ_of_lt iht

/-- The accumulator never exceeds the left-flush fold result. -/
theorem le_maxLeftFlush_acc (r : Box) :
    ∀ (l : List Box) (acc : Int), acc ≤ maxLeftFlush r l acc := by
  intro l
  induction l with
  | nil => intro acc; exact le_refl acc
  | cons o rest ih =>
    intro acc
    show acc ≤ maxLeftFlush r rest (max acc (o.p - r.pw))
    exact le_trans (le_max_left _ _) (ih _)

/-- Every listed obstacle's flush-left position is at most the fold
result. -/
theorem mem_le_maxLeftFlush (r : Box) :
    ∀ (l : List Box) (acc : Int), ∀ o ∈ l, o.p - r.pw ≤ maxLeftFlush r l acc := by
  intro l
  induction l with
  | nil => intro acc o ho; exact absurd ho (List.not_mem_nil o)
  | cons o2 rest ih =>
    intro acc o ho
    rcases List.mem_cons.mp ho with rfl | hrest
    · show o.p - r.pw ≤ maxLeftFlush r rest (max acc (o.p - r.pw))
      exact le_trans (le_max_right _ _) (le_maxLeftFlush_acc r rest _)
    · exact ih _ o hrest

/-- The left-flush fold result is the accumulator or a listed obstacle's
flush position. -/
theorem maxLeftFlush_eq_or (r : Box) :
    ∀ (l : List Box) (acc : Int),
      maxLeftFlush r l acc = acc ∨ ∃ o ∈ l, maxLeftFlush r l acc = o.p - r.pw := by
  intro l
  induction l with
  | nil => intro acc; exact Or.inl rfl
  | cons o2 rest ih =>
    intro acc
    rcases ih (max acc (o2.p - r.pw)) with h | ⟨o, ho, h⟩
    · rcases max_choice acc (o2.p - r.pw) with hm | hm
      · exact Or.inl (by rw [show maxLeftFlush r (o2 :: rest) acc =
          maxLeftFlush r rest (max acc (o2.p - r.pw)) from rfl, h, hm])
      · refine Or.inr ⟨o2, List.mem_cons_self _ _, ?_⟩
        rw [show maxLeftFlush r (o2 :: rest) acc =
          maxLeftFlush r rest (max acc (o2.p - r.pw)) from rfl, h, hm]
    · exact Or.inr ⟨o, List.mem_cons_of_mem _ ho, h⟩

/-- The right-flush fold result never exceeds the accumulator. -/
theorem minRightFlush_le_acc (r : Box) :
    ∀ (l : List Box) (acc : Int), minRightFlush r l acc ≤ acc := by
  intro l
  induction l with
  | nil => intro acc; exact le_refl acc
  | cons o rest ih =>
    intro acc
    show minRightFlush r rest (min acc (o.p + o.pw)) ≤ acc
    exact le_trans (ih _) (min_le_left _ _)

/-- The right-flush fold result is at most every listed obstacle's flush
position. -/
theorem minRightFlush_le_mem (r : Box) :
    ∀ (l : List Box) (acc : Int), ∀ o ∈ l, minRightFlush r l acc ≤ o.p + o.pw := by
  intro l
  induction l with
  | nil => intro acc o ho; exact absurd ho (List.not_mem_nil o)
  | cons o2 rest ih =>
    intro acc o ho
    rcases List.mem_cons.mp ho with rfl | hrest
    · show minRightFlush r rest (min acc (o.p + o.pw)) ≤ o.p + o.pw
      exact le_trans (minRightFlush_le_acc r rest _) (min_le_right _ _)
    · exact ih _ o hrest

/-- The right-flush fold result is the accumulator or a listed obstacle's
flush position. -/
theorem minRightFlush_eq_or (r : Box) :
    ∀ (l : List Box) (acc : Int),
      minRightFlush r l acc = acc ∨ ∃ o ∈ l, minRightFlush r l acc = o.p + o.pw := by
  intro l
  induction l with
  | nil => intro acc; exact Or.inl rfl
  | cons o2 rest ih =>
    intro acc
    rcases ih (min acc (o2.p + o2.pw)) with h | ⟨o, ho, h⟩
    · rcases min_choice acc (o2.p + o2.pw) with hm | hm
      · exact Or.inl (by rw [show minRightFlush r (o2 :: rest) acc =
          minRightFlush r rest (min acc (o2.p + o2.pw)) from rfl, h, hm])
      · refine Or.inr ⟨o2, List.mem_cons_self _ _, ?_⟩
        rw [show minRightFlush r (o2 :: rest) acc =
          minRightFlush r rest (min acc (o2.p + o2.pw)) from rfl, h, hm]
    · exact Or.inr ⟨o, List.mem_cons_of_mem _ ho, h⟩

/-- The one-step leftward push is the smallest of the individual
corrections: no candidate's flush position lies beyond it. -/
theorem leftTarget_le (r : Box) (hits : List Box) (o : Box) (ho : o ∈ hits) :
    o.p - r.pw ≤ leftTarget r hits := by
  cases hits with
  | nil => exact absurd ho (List.not_mem_nil o)
  | cons o2 rest =>
    rcases List.mem_cons.mp ho with rfl | hrest
    · exact le_maxLeftFlush_acc r rest _
    · exact mem_le_maxLeftFlush r rest _ o hrest

/-- The one-step leftward push lands exactly on some candidate's flush
position. -/
theorem leftTarget_mem (r : Box) (o : Box) (rest : List Box) :
    ∃ o2 ∈ o :: rest, leftTarget r (o :: rest) = o2.p - r.pw := by
  rcases maxLeftFlush_eq_or r rest (o.p - r.pw) with h | ⟨o2, ho2, h⟩
  · exact ⟨o, List.mem_cons_self _ _, h⟩
  · exact ⟨o2, List.mem_cons_of_mem _ ho2, h⟩

/-- The one-step rightward push is the smallest of the individual
corrections. -/
theorem rightTarget_le (r : Box) (hits : List Box) (o : Box) (ho : o ∈ hits) :
    rightTarget r hits ≤ o.p + o.pw := by
  cases hits with
  | nil => exact absurd ho (List.not_mem_nil o)
  | cons o2 rest =>
    rcases List.mem_cons.mp ho with rfl | hrest
    · exact minRightFlush_le_acc r rest _
    · exact minRightFlush_le_mem r rest _ o hrest

/-- The one-step rightward push lands exactly on some candidate's flush
position. -/
theorem rightTarget_mem (r : Box) (o : Box) (rest : List Box) :
    ∃ o2 ∈ o :: rest, rightTarget r (o :: rest) = o2.p + o2.pw := by
  rcases minRightFlush_eq_or r rest (o.p + o.pw) with h | ⟨o2, ho2, h⟩
  · exact ⟨o, List.mem_cons_self _ _, h⟩
  · exact ⟨o2, List.mem_cons_of_mem _ ho2, h⟩

/-- Membership in the overlap filter unpacks to list membership plus
overlap. -/
theorem mem_hitsOf {r : Box} {obs : List Box} {o : Box} (h : o ∈ hitsOf r obs) :
    o ∈ obs ∧ boxOverlap r o := by
  have hm := List.mem_filter.mp h
  exact ⟨hm.1, of_decide_eq_true hm.2⟩

/-- An overlapping listed obstacle is in the overlap filter. -/
theorem hitsOf_mem {r : Box} {obs : List Box} {o : Box} (h1 : o ∈ obs)
    (h2 : boxOverlap r o) : o ∈ hitsOf r obs :=
  List.mem_filter.mpr ⟨h1, decide_eq_true h2⟩

/-- A leftward push moves strictly left. -/
theorem leftTarget_lt_p (r : Box) (obs : List Box) (o : Box) (rest : List Box)
    (h : hitsOf r obs = o :: rest) : leftTarget r (o :: rest) < r.p := by
  rcases leftTarget_mem r o rest with ⟨o2, ho2, heq⟩
  have hov : boxOverlap r o2 := (mem_hitsOf (h ▸ ho2)).2
  obtain ⟨-, -, -, -, -, h6, -, -⟩ := hov
  rw [heq]
  omega

/-- A rightward push moves strictly right. -/
theorem p_lt_rightTarget (r : Box) (obs : List Box) (o : Box) (rest : List Box)
    (h : hitsOf r obs = o :: rest) : r.p < rightTarget r (o :: rest) := by
  rcases rightTarget_mem r o rest with ⟨o2, ho2, heq⟩
  have hov : boxOverlap r o2 := (mem_hitsOf (h ▸ ho2)).2
  obtain ⟨-, -, -, -, h5, -, -, -⟩ := hov
  rw [heq]
  omega

/-- Each leftward push strictly shrinks the set of obstacles that can
still block a leftward push. -/
theorem leftMeasure_decreases (r : Box) (obs : List Box) (o : Box) (rest : List Box)
    (h : hitsOf r obs = o :: rest) :
    leftMeasure { r with p := leftTarget r (o :: rest) } obs < leftMeasure r obs := by
  have hlt : leftTarget r (o :: rest) < r.p := leftTarget_lt_p r obs o rest h
  rcases leftTarget_mem r o rest with ⟨o2, ho2, heq⟩
  have ho2h := mem_hitsOf (h ▸ ho2)
  obtain ⟨a1, a2, a3, a4, a5, a6, a7, a8⟩ := ho2h.2
  apply filter_length_lt _ _ obs
  · intro x _ hdx
    have hb := of_decide_eq_true hdx
    obtain ⟨b1, b2, b3, b4, b5, b6, b7⟩ := hb
    have hb7 : x.p < leftTarget r (o :: rest) + r.pw := b7
    exact decide_eq_true ⟨b1, b2, b3, b4, b5, b6, by omega⟩
  · exact ho2h.1
  · exact decide_eq_true ⟨a1, a2, a3, a4, a7, a8, a6⟩
  · apply decide_eq_false
    intro hb
    obtain ⟨-, -, -, -, -, -, b7⟩ := hb
    have hb7 : o2.p < leftTarget r (o :: rest) + r.pw := b7
    omega

/-- Each rightward push strictly shrinks the set of obstacles that can
still block a rightward push. -/
theorem rightMeasure_decreases (r : Box) (obs : List Box) (o : Box) (rest : List Box)
    (h : hitsOf r obs = o :: rest) :
    rightMeasure { r with p := rightTarget r (o :: rest) } obs < rightMeasure r obs := by
  have hlt : r.p < rightTarget r (o :: rest) := p_lt_rightTarget r obs o rest h
  rcases rightTarget_mem r o rest with ⟨o2, ho2, heq⟩
  have ho2h := mem_hitsOf (h ▸ ho2)
  obtain ⟨a1, a2, a3, a4, a5, a6, a7, a8⟩ := ho2h.2
  apply filter_length_lt _ _ obs
  · intro x _ hdx
    have hb := of_decide_eq_true hdx
    obtain ⟨b1, b2, b3, b4, b5, b6, b7⟩ := hb
    have hb7 : rightTarget r (o :: rest) < x.p + x.pw := b7
    exact decide_eq_true ⟨b1, b2, b3, b4, b5, b6, by omega⟩
  · exact ho2h.1
  · exact decide_eq_true ⟨a1, a2, a3, a4, a7, a8, a5⟩
  · apply decide_eq_false
    intro hb
    obtain ⟨-, -, -, -, -, -, b7⟩ := hb
    have hb7 : rightTarget r (o :: rest) < o2.p + o2.pw := b7
    omega

/-- Unfolding equation for `resolveLeft` at positive fuel. -/
theorem resolveLeft_succ (n : Nat) (r : Box) (obs : List Box) :
    resolveLeft (n + 1) r obs =
      match hitsOf r obs with
      | [] => r
      | o :: rest => resolveLeft n { r with p := leftTarget r (o :: rest) } obs := rfl

/-- Unfolding equation for `resolveRight` at positive fuel. -/
theorem resolveRight_succ (n : Nat) (r : Box) (obs : List Box) :
    resolveRight (n + 1) r obs =
      match hitsOf r obs with
      | [] => r
      | o :: rest => resolveRight n { r with p := rightTarget r (o :: rest) } obs := rfl

/-- `resolveLeft` only moves the resolved-axis coordinate. -/
theorem resolveLeft_fields :
    ∀ (fuel : Nat) (r : Box) (obs : List Box),
      (resolveLeft fuel r obs).pw = r.pw ∧ (resolveLeft fuel r obs).q = r.q ∧
        (resolveLeft fuel r obs).qw = r.qw := by
  intro fuel
  induction fuel with
  | zero => intro r obs; exact ⟨rfl, rfl, rfl⟩
  | succ n ih =>
    intro r obs
    rw [resolveLeft_succ]
    cases h : hitsOf r obs with
    | nil => exact ⟨rfl, rfl, rfl⟩
    | cons o rest => exact ih _ _

/-- `resolveRight` only moves the resolved-axis coordinate. -/
theorem resolveRight_fields :
    ∀ (fuel : Nat) (r : Box) (obs : List Box),
      (resolveRight fuel r obs).pw = r.pw ∧ (resolveRight fuel r obs).q = r.q ∧
        (resolveRight fuel r obs).qw = r.qw := by
  intro fuel
  induction fuel with
  | zero => intro r obs; exact ⟨rfl, rfl, rfl⟩
  | succ n ih =>
    intro r obs
    rw [resolveRight_succ]
    cases h : hitsOf r obs with
    | nil => exact ⟨rfl, rfl, rfl⟩
    | cons o rest => exact ih _ _

/-- With fuel at least the blocking measure, `resolveLeft` eliminates
every overlap. -/
theorem resolveLeft_no_overlap :
    ∀ (fuel : Nat) (r : Box) (obs : List Box), leftMeasure r obs ≤ fuel →
      ∀ o ∈ obs, ¬ boxOverlap (resolveLeft fuel r obs) o := by
  intro fuel
  induction fuel with
  | zero =>
    intro r obs hm o ho hov
    have h0 : leftMeasure r obs = 0 := Nat.le_zero.mp hm
    have hnil := List.length_eq_zero.mp h0
    have hno := List.filter_eq_nil_iff.mp hnil o ho
    obtain ⟨a1, a2, a3, a4, a5, a6, a7, a8⟩ := hov
    exact hno (decide_eq_true ⟨a1, a2, a3, a4, a7, a8, a6⟩)
  | succ n ih =>
    intro r obs hm o ho
    rw [resolveLeft_succ]
    cases h : hitsOf r obs with
    | nil =>
      intro hov
      have hmem : o ∈ hitsOf r obs := hitsOf_mem ho hov
      rw [h] at hmem
      exact absurd hmem (List.not_mem_nil o)
    | cons o1 rest =>
      apply ih _ obs _ o ho
      have hdec := leftMeasure_decreases r obs o1 rest h
      omega

/-- With fuel at least the blocking measure, `resolveRight` eliminates
every overlap. -/
theorem resolveRight_no_overlap :
    ∀ (fuel : Nat) (r : Box) (obs : List Box), rightMeasure r obs ≤ fuel →
      ∀ o ∈ obs, ¬ boxOverlap (resolveRight fuel r obs) o := by
  intro fuel
  induction fuel with
  | zero =>
    intro r obs hm o ho hov
    have h0 : rightMeasure r obs = 0 := Nat.le_zero.mp hm
    have hnil := List.length_eq_zero.mp h0
    have hno := List.filter_eq_nil_iff.mp hnil o ho
    obtain ⟨a1, a2, a3, a4, a5, a6, a7, a8⟩ := hov
    exact hno (decide_eq_true ⟨a1, a2, a3, a4, a7, a8, a5⟩)
  | succ n ih =>
    intro r obs hm o ho
    rw [resolveRight_succ]
    cases h : hitsOf r obs with
    | nil =>
      intro hov
      have hmem : o ∈ hitsOf r obs := hitsOf_mem ho hov
      rw [h] at hmem
      exact absurd hmem (List.not_mem_nil o)
    | cons o1 rest =>
      apply ih _ obs _ o ho
      have hdec := rightMeasure_decreases r obs o1 rest h
      omega

/-- The blocking measures are bounded by the obstacle count, so
`obs.length` is always enough fuel. -/
theorem leftMeasure_le_length (r : Box) (obs : List Box) :
    leftMeasure r obs ≤ obs.length :=
  List.length_filter_le _ obs

/-- Right-push analogue of `leftMeasure_le_length`. -/
theorem rightMeasure_le_length (r : Box) (obs : List Box) :
    rightMeasure r obs ≤ obs.length :=
  List.length_filter_le _ obs

/-- World-coordinate overlap matches the x-axis box view. -/
theorem rectOverlap_iff_boxX (a b : SRect) :
    rectOverlap a b ↔ boxOverlap (toBoxX a) (toBoxX b) := by
  unfold rectOverlap boxOverlap toBoxX
  tauto

/-- World-coordinate overlap matches the y-axis box view. -/
theorem rectOverlap_iff_boxY (a b : SRect) :
    rectOverlap a b ↔ boxOverlap (toBoxY a) (toBoxY b) := by
  unfold rectOverlap boxOverlap toBoxY
  tauto

/-- `collide_with_obstacles` along x with rightward travel pushes left. -/
theorem collide_x_pos (r : SRect) (obs : List SRect) (travel : Int) (h : 0 < travel) :
    collide_with_obstacles r obs Axis.x travel =
      ofBoxX (resolveLeft obs.length (toBoxX r) (obs.map toBoxX)) := by
  show (if 0 < travel then ofBoxX (resolveLeft obs.length (toBoxX r) (obs.map toBoxX))
    else if travel < 0 then ofBoxX (resolveRight obs.length (toBoxX r) (obs.map toBoxX))
    else r) = _
  rw [if_pos h]

/-- `collide_with_obstacles` along x with leftward travel pushes right. -/
theorem collide_x_neg (r : SRect) (obs : List SRect) (travel : Int) (h : travel < 0) :
    collide_with_obstacles r obs Axis.x travel =
      ofBoxX (resolveRight obs.length (toBoxX r) (obs.map toBoxX)) := by
  show (if 0 < travel then ofBoxX (resolveLeft obs.length (toBoxX r) (obs.map toBoxX))
    else if travel < 0 then ofBoxX (resolveRight obs.length (toBoxX r) (obs.map toBoxX))
    else r) = _
  rw [if_neg (by omega), if_pos h]

/-- `collide_with_obstacles` along y with downward travel pushes up. -/
theorem collide_y_pos (r : SRect) (obs : List SRect) (travel : Int) (h : 0 < travel) :
    collide_with_obstacles r obs Axis.y travel =
      ofBoxY (resolveLeft obs.length (toBoxY r) (obs.map toBoxY)) := by
  show (if 0 < travel then ofBoxY (resolveLeft obs.length (toBoxY r) (obs.map toBoxY))
    else if travel < 0 then ofBoxY (resolveRight obs.length (toBoxY r) (obs.map toBoxY))
    else r) = _
  rw [if_pos h]

/-- `collide_with_obstacles` along y with upward travel pushes down. -/
theorem collide_y_neg (r : SRect) (obs : List SRect) (travel : Int) (h : travel < 0) :
    collide_with_obstacles r obs Axis.y travel =
      ofBoxY (resolveRight obs.length (toBoxY r) (obs.map toBoxY)) := by
  show (if 0 < travel then ofBoxY (resolveLeft obs.length (toBoxY r) (obs.map toBoxY))
    else if travel < 0 then ofBoxY (resolveRight obs.length (toBoxY r) (obs.map toBoxY))
    else r) = _
  rw [if_neg (by omega), if_pos h]

/-- C3: a per-axis `collide_with_obstacles` call with non-zero travel along
the axis leaves the entity rectangle overlapping no obstacle; the
corrected rectangle differs from the pre-resolution one only along the
resolved axis; and each correction step applies the smallest correction —
the push target is at least every candidate's flush-left position (resp.
at most every flush-right position) and coincides with one of them. -/
theorem collide_with_obstacles_resolves (r : SRect) (obs : List SRect) (dir : Axis)
    (travel : Int) (ht : travel ≠ 0) :
    (∀ o ∈ obs, ¬ rectOverlap (collide_with_obstacles r obs dir travel) o) ∧
      (dir = Axis.x → (collide_with_obstacles r obs dir travel).y = r.y ∧
        (collide_with_obstacles r obs dir travel).w = r.w ∧
        (collide_with_obstacles r obs dir travel).h = r.h) ∧
      (dir = Axis.y → (collide_with_obstacles r obs dir travel).x = r.x ∧
        (collide_with_obstacles r obs dir travel).w = r.w ∧
        (collide_with_obstacles r obs dir travel).h = r.h) ∧
      (∀ (b : Box) (hits : List Box), ∀ o ∈ hits, o.p - b.pw ≤ leftTarget b hits) ∧
      (∀ (b o : Box) (rest : List Box),
        ∃ o2 ∈ o :: rest, leftTarget b (o :: rest) = o2.p - b.pw) ∧
      (∀ (b : Box) (hits : List Box), ∀ o ∈ hits, rightTarget b hits ≤ o.p + o.pw) ∧
      (∀ (b o : Box) (rest : List Box),
        ∃ o2 ∈ o :: rest, rightTarget b (o :: rest) = o2.p + o2.pw) := by
  refine ⟨?_, ?_, ?_, fun b hits o ho => leftTarget_le b hits o ho,
    fun b o rest => leftTarget_mem b o rest,
    fun b hits o ho => rightTarget_le b hits o ho,
    fun b o rest => rightTarget_mem b o rest⟩
  · intro o ho
    cases dir with
    | x =>
      rcases lt_trichotomy travel 0 with htv | htv | htv
      · rw [collide_x_neg r obs travel htv, rectOverlap_iff_boxX]
        have hfuel : rightMeasure (toBoxX r) (obs.map toBoxX) ≤ obs.length := by
          have hb := rightMeasure_le_length (toBoxX r) (obs.map toBoxX)
          simpa using hb
        exact resolveRight_no_overlap obs.length (toBoxX r) (obs.map toBoxX) hfuel
          (toBoxX o) (List.mem_map_of_mem toBoxX ho)
      · exact absurd htv ht
      · rw [collide_x_pos r obs travel htv, rectOverlap_iff_boxX]
        have hfuel : leftMeasure (toBoxX r) (obs.map toBoxX) ≤ obs.length := by
          have hb := leftMeasure_le_length (toBoxX r) (obs.map toBoxX)
          simpa using hb
        exact resolveLeft_no_overlap obs.length (toBoxX r) (obs.map toBoxX) hfuel
          (toBoxX o) (List.mem_map_of_mem toBoxX ho)
    | y =>
      rcases lt_trichotomy travel 0 with htv | htv | htv
      · rw [collide_y_neg r obs travel htv, rectOverlap_iff_boxY]
        have hfuel : rightMeasure (toBoxY r) (obs.map toBoxY) ≤ obs.length := by
          have hb := rightMeasure_le_length (toBoxY r) (obs.map toBoxY)
          simpa using hb
        exact resolveRight_no_overlap obs.length (toBoxY r) (obs.map toBoxY) hfuel
          (toBoxY o) (List.mem_map_of_mem toBoxY ho)
      · exact absurd htv ht
      · rw [collide_y_pos r obs travel htv, rectOverlap_iff_boxY]
        have hfuel : leftMeasure (toBoxY r) (obs.map toBoxY) ≤ obs.length := by
          have hb := leftMeasure_le_length (toBoxY r) (obs.map toBoxY)
          simpa using hb
        exact resolveLeft_no_overlap obs.length (toBoxY r) (obs.map toBoxY) hfuel
          (toBoxY o) (List.mem_map_of_mem toBoxY ho)
  · intro hdir
    subst hdir
    rcases lt_trichotomy travel 0 with htv | htv | htv
    · rw [collide_x_neg r obs travel htv]
      obtain ⟨f1, f2, f3⟩ := resolveRight_fields obs.length (toBoxX r) (obs.map toBoxX)
      exact ⟨f2, f1, f3⟩
    · exact absurd htv ht
    · rw [collide_x_pos r obs travel htv]
      obtain ⟨f1, f2, f3⟩ := resolveLeft_fields obs.length (toBoxX r) (obs.map toBoxX)
      exact ⟨f2, f1, f3⟩
  · intro hdir
    subst hdir
    rcases lt_trichotomy travel 0 with htv | htv | htv
    · rw [collide_y_neg r obs travel htv]
      obtain ⟨f1, f2, f3⟩ := resolveRight_fields obs.length (toBoxY r) (obs.map toBoxY)
      exact ⟨f2, f3, f1⟩
    · exact absurd htv ht
    · rw [collide_y_pos r obs travel htv]
      obtain ⟨f1, f2, f3⟩ := resolveLeft_fields obs.length (toBoxY r) (obs.map toBoxY)
      exact ⟨f2, f3, f1⟩

/-- Witness for `collide_with_obstacles_resolves`: a 4×4 entity that moved
right by 3 into a 4×4 wall. -/
theorem collide_with_obstacles_resolves_witness :
    ((3 : Int) ≠ 0) ∧
      ((∀ o ∈ [(⟨6, 0, 4, 4⟩ : SRect)],
          ¬ rectOverlap (collide_with_obstacles ⟨5, 0, 4, 4⟩ [⟨6, 0, 4, 4⟩] Axis.x 3) o) ∧
        (Axis.x = Axis.x →
          (collide_with_obstacles ⟨5, 0, 4, 4⟩ [⟨6, 0, 4, 4⟩] Axis.x 3).y = (⟨5, 0, 4, 4⟩ : SRect).y ∧
          (collide_with_obstacles ⟨5, 0, 4, 4⟩ [⟨6, 0, 4, 4⟩] Axis.x 3).w = (⟨5, 0, 4, 4⟩ : SRect).w ∧
          (collide_with_obstacles ⟨5, 0, 4, 4⟩ [⟨6, 0, 4, 4⟩] Axis.x 3).h = (⟨5, 0, 4, 4⟩ : SRect).h) ∧
        (Axis.x = Axis.y →
          (collide_with_obstacles ⟨5, 0, 4, 4⟩ [⟨6, 0, 4, 4⟩] Axis.x 3).x = (⟨5, 0, 4, 4⟩ : SRect).x ∧
          (collide_with_obstacles ⟨5, 0, 4, 4⟩ [⟨6, 0, 4, 4⟩] Axis.x 3).w = (⟨5, 0, 4, 4⟩ : SRect).w ∧
          (collide_with_obstacles ⟨5, 0, 4, 4⟩ [⟨6, 0, 4, 4⟩] Axis.x 3).h = (⟨5, 0, 4, 4⟩ : SRect).h) ∧
        (∀ (b : Box) (hits : List Box), ∀ o ∈ hits, o.p - b.pw ≤ leftTarget b hits) ∧
        (∀ (b o : Box) (rest : List Box),
          ∃ o2 ∈ o :: rest, leftTarget b (o :: rest) = o2.p - b.pw) ∧
        (∀ (b : Box) (hits : List Box), ∀ o ∈ hits, rightTarget b hits ≤ o.p + o.pw) ∧
        (∀ (b o : Box) (rest : List Box),
          ∃ o2 ∈ o :: rest, rightTarget b (o :: rest) = o2.p + o2.pw)) :=
  ⟨by decide,
    collide_with_obstacles_resolves ⟨5, 0, 4, 4⟩ [⟨6, 0, 4, 4⟩] Axis.x 3 (by decide)⟩


/-- C6: when 5000 ms or less have elapsed since `last_queue_update`,
`Game.update_pathfinding_queue` changes nothing: every mob's
`can_find_path` flag, `mob_idx`, and `last_queue_update` are all left
unchanged. -/
theorem update_pathfinding_queue_no_window (now : Int) (s : SchedState)
    (h : now - s.last_queue_update ≤ 5000) :
    update_pathfinding_queue now s = s := by
  unfold update_pathfinding_queue
  rw [if_neg (by omega)]

/-- Witness for `update_pathfinding_queue_no_window` at a concrete state
and clock value. -/
theorem update_pathfinding_queue_no_window_witness :
    (3000 : Int) - (schedInit 2).last_queue_update ≤ 5000 ∧
      update_pathfinding_queue 3000 (schedInit 2) = schedInit 2 :=
  ⟨by decide, update_pathfinding_queue_no_window 3000 (schedInit 2) (by decide)⟩

/-- C1 (code bug): in the reachable state `desyncState` (one live mob,
`mob_idx = 2` after a removal between windows), the next elapsed window
flags zero mobs even though one mob is registered — the reset on line 561
of src/main.py compares `mob_idx` with `len(self.mobs)` by equality only,
so an index already past the end is never brought back into range. -/
theorem scheduler_flags_no_mob :
    desyncState.mobs.length = 1 ∧
      (18000 : Int) - desyncState.last_queue_update > 5000 ∧
      (update_pathfinding_queue 18000 desyncState).mobs.count true = 0 := by
  decide

/-- C2 (code bug): in the reachable state `desyncStateB` the rotation
index (2) already exceeds the live mob count (1) when the window fires,
and `Game.update_pathfinding_queue` does not recompute it modulo the new
count: the window flags no mob at all and the index grows to 3, so every
remaining mob's turn is lost, not just the removed mob's. -/
theorem scheduler_index_not_recomputed :
    desyncStateB.mob_idx = 2 ∧ desyncStateB.mobs.length = 1 ∧
      (update_pathfinding_queue 18000 desyncStateB).mob_idx = 3 ∧
      (update_pathfinding_queue 18000 desyncStateB).mobs.count true = 0 := by
  decide

/-- C5 (code bug): starting from the reachable state `desyncStateC` (one
live mob, `mob_idx = 2`), two consecutive elapsed windows with a stable
population of k = 1 mob dispatch that mob 0 times, though N/k ± 1 with
N = 2, k = 1 requires at least one dispatch; the mob is starved
indefinitely since `mob_idx` only keeps growing. -/
theorem scheduler_starves_stable_population :
    desyncStateC.mobs.length = 1 ∧
      (16500 : Int) - desyncStateC.last_queue_update > 5000 ∧
      (update_pathfinding_queue 16500 desyncStateC).mobs = [false] ∧
      (22000 : Int) -
          (update_pathfinding_queue 16500 desyncStateC).last_queue_update > 5000 ∧
      (update_pathfinding_queue 22000
          (update_pathfinding_queue 16500 desyncStateC)).mobs = [false] ∧
      (update_pathfinding_queue 22000
          (update_pathfinding_queue 16500 desyncStateC)).mob_idx = 4 := by
  decide

/-- C8: `Player.decrease_stamina` with a non-negative rate never leaves a
non-negative stamina negative, and when the decrement fires and would go
below zero the stamina is clamped to exactly 0. -/
theorem decrease_stamina_clamped (now t : Int) (stamina rate : ℚ)
    (hrate : 0 ≤ rate) (hst : 0 ≤ stamina) :
    0 ≤ (decrease_stamina now t stamina rate).1 ∧
      (now - t > 75 → stamina - rate < 0 →
        (decrease_stamina now t stamina rate).1 = 0) := by
  unfold decrease_stamina
  by_cases h : now - t > 75
  · simp only [if_pos h]
    by_cases h2 : stamina - rate < 0
    · simp only [if_pos h2]
      exact ⟨le_refl 0, fun _ _ => trivial⟩
    · simp only [if_neg h2]
      exact ⟨le_of_not_lt h2, fun _ hc => absurd hc h2⟩
  · simp only [if_neg h]
    exact ⟨hst, fun hc => absurd hc h⟩

/-- Witness for `decrease_stamina_clamped`: a concrete call whose
subtraction would go below zero is clamped to exactly 0. -/
theorem decrease_stamina_clamped_witness :
    (0 : ℚ) ≤ 10 ∧ (0 : ℚ) ≤ 5 ∧
      (0 ≤ (decrease_stamina 100 0 5 10).1 ∧
        ((100 : Int) - 0 > 75 → (5 : ℚ) - 10 < 0 →
          (decrease_stamina 100 0 5 10).1 = 0)) :=
  ⟨by norm_num, by norm_num,
    decrease_stamina_clamped 100 0 5 10 (by norm_num) (by norm_num)⟩

/-- C9 (code bug): the health branch of `Player.pickup_item` lets health
exceed `PLAYER_HEALTH`: with `PLAYER_HEALTH = 100`, health 100 and a
`HEALTH_BOOST` of 20 the final health is 120, because line 383 of
src/player.py assigns the clamp to the misspelled attribute `heatlh` and
leaves `health` untouched. -/
theorem pickup_item_health_exceeds_max :
    (pickup_item_health 100 20 ⟨100, none⟩).health = 120 ∧ (100 : ℚ) < 120 := by
  norm_num [pickup_item_health]

/-- `popMin` returns `none` only on the empty frontier. -/
theorem popMin_eq_none : ∀ l : List Entry, popMin l = none → l = [] := by
  intro l
  cases l with
  | nil => intro _; rfl
  | cons a t =>
    intro h
    unfold popMin at h
    cases h2 : popMin t with
    | none => rw [h2] at h; exact absurd h (by simp)
    | some pair => rw [h2] at h; rcases pair with ⟨e2, rest2⟩; by_cases hle : entryLE a e2 <;>
        simp [hle] at h

/-- The frontier order is transitive. -/
theorem entry_order_trans (a b c : Entry)
    (h1 : a.f < b.f ∨ (a.f = b.f ∧ a.ins ≤ b.ins))
    (h2 : b.f < c.f ∨ (b.f = c.f ∧ b.ins ≤ c.ins)) :
    a.f < c.f ∨ (a.f = c.f ∧ a.ins ≤ c.ins) := by
  omega

/-- The entry popped by `popMin` belongs to the frontier and is minimal:
strictly smaller priority than every other entry, or equal priority and
an insertion counter at most theirs. -/
theorem popMin_min :
    ∀ (l : List Entry) (e : Entry) (rest : List Entry), popMin l = some (e, rest) →
      e ∈ l ∧ ∀ e2 ∈ l, e.f < e2.f ∨ (e.f = e2.f ∧ e.ins ≤ e2.ins) := by
  intro l
  induction l with
  | nil => intro e rest h; exact absurd h (by simp [popMin])
  | cons a t ih =>
    intro e rest h
    unfold popMin at h
    cases h2 : popMin t with
    | none =>
      rw [h2] at h
      have ht : t = [] := popMin_eq_none t h2
      have hae : a = e := by
        have := Option.some.inj h
        exact congrArg Prod.fst this
      subst hae
      subst ht
      refine ⟨List.mem_cons_self a [], ?_⟩
      intro e2 he2
      rcases List.mem_cons.mp he2 with rfl | he2t
      · exact Or.inr ⟨rfl, le_refl _⟩
      · exact absurd he2t (List.not_mem_nil e2)
    | some pair =>
      rcases pair with ⟨eMin, restMin⟩
      rw [h2] at h
      have h3 : (if entryLE a eMin = true then some (a, t)
          else some (eMin, a :: restMin)) = some (e, rest) := h
      have ihm := ih eMin restMin h2
      by_cases hle : entryLE a eMin
      · rw [if_pos hle] at h3
        have hae : a = e := by
          have := Option.some.inj h3
          exact congrArg Prod.fst this
        subst hae
        refine ⟨List.mem_cons_self a t, ?_⟩
        intro e2 he2
        have hlep : a.f < eMin.f ∨ (a.f = eMin.f ∧ a.ins ≤ eMin.ins) := by
          have := of_decide_eq_true hle
          exact this
        rcases List.mem_cons.mp he2 with rfl | he2t
        · exact Or.inr ⟨rfl, le_refl _⟩
        · exact entry_order_trans a eMin e2 hlep (ihm.2 e2 he2t)
      · rw [if_neg hle] at h3
        have hee : eMin = e := by
          have := Option.some.inj h3
          exact congrArg Prod.fst this
        subst hee
        refine ⟨List.mem_cons_of_mem a ihm.1, ?_⟩
        intro e2 he2
        have hgt : ¬(a.f < eMin.f ∨ (a.f = eMin.f ∧ a.ins ≤ eMin.ins)) := by
          intro hp
          exact hle (decide_eq_true hp)
        rcases List.mem_cons.mp he2 with rfl | he2t
        · omega
        · exact ihm.2 e2 he2t

/-- C7: pathfinding is deterministic — `Game.find_path` (through the
modelled `a_star_search`) returns the identical waypoint sequence on
repeated invocations over identical input, and the frontier pop used by
the search orders entries of equal priority by insertion order (the fixed
deterministic tie-break). -/
theorem find_path_deterministic :
    (∀ (g : WeightedGraph) (ts : Int) (p q : Int × Int),
        find_path g ts p q = find_path g ts p q) ∧
      ∀ (l : List Entry) (e : Entry) (rest : List Entry),
        popMin l = some (e, rest) →
          e ∈ l ∧ ∀ e2 ∈ l, e.f < e2.f ∨ (e.f = e2.f ∧ e.ins ≤ e2.ins) :=
  ⟨fun _ _ _ _ => rfl, popMin_min⟩

/-- Witness for `find_path_deterministic`: two equal-priority entries are
popped in insertion order. -/
theorem find_path_deterministic_witness :
    popMin [entryA, entryB] = some (entryA, [entryB]) ∧
      (entryA ∈ [entryA, entryB] ∧
        ∀ e2 ∈ [entryA, entryB],
          entryA.f < e2.f ∨ (entryA.f = e2.f ∧ entryA.ins ≤ e2.ins)) :=
  ⟨rfl, find_path_deterministic.2 [entryA, entryB] entryA [entryB] rfl⟩
